import Mathlib

/-!
Shallow embedding of the whisper-preview transcriber core
(src/rust/transcriber/src/session.rs, src/rust/transcriber/src/main.rs,
src/rust/shared-vad/src/lib.rs, src/rust/shared-protocol/src/lib.rs).

Conventions of the embedding:
* machine integers are modelled as `Int`/`Nat`; where Rust wraps (release
  semantics for `as usize` casts and overflowing arithmetic) the wrap is
  written out explicitly as `% 2^w`;
* Rust's truncating integer division on `i32`/`i64` is `Int.tdiv`;
* `f32` values that flow through the code untouched (probabilities) are
  modelled as `ℚ`, and the VAD interpolation arithmetic is carried out in `ℚ`;
* the speech engine (whisper) and the earshot detector are opaque external
  collaborators: they are parameters of the functions that call them.
-/

namespace WhisperPreview

/-- Constant `SAMPLE_RATE` from shared-protocol/src/lib.rs. -/
def SAMPLE_RATE : Nat := 16000

/-- Constant `CS_SAMPLES` from shared-protocol/src/lib.rs: samples per centisecond. -/
def CS_SAMPLES : Nat := 160

/-- Constant `FRAME_SIZE_SAMPLES` from shared-protocol/src/lib.rs: 6 cs · 160 = 960. -/
def FRAME_SIZE_SAMPLES : Nat := 960

/-- Constant `MIN_SAMPLES` from session.rs: 3 frames · 960 samples. -/
def MIN_SAMPLES : Nat := 2880

/-- Constant `MAX_PROMPT_TOKENS` from session.rs. -/
def MAX_PROMPT_TOKENS : Nat := 224

/-- Constant `EARSHOT_FRAME` from shared-vad/src/lib.rs: 16 ms at 16 kHz. -/
def EARSHOT_FRAME : Nat := 256

/-- The opaque earshot `Detector`: an abstract state type `δ` with an initial
state (`Detector::default()`) and a `predict_i16` step that returns the
updated state and one probability. -/
structure DetectorModel (δ : Type) where
  init : δ
  predict : δ → List Int → δ × ℚ

/-- Structure `Vad` from shared-vad/src/lib.rs. -/
structure Vad (δ : Type) where
  detector : δ
  probabilities : List ℚ
  leftovers : List Int

/-- Operation `Vad::new` from shared-vad/src/lib.rs. -/
def Vad.new (dm : DetectorModel δ) : Vad δ :=
  { detector := dm.init, probabilities := [], leftovers := [] }

/-- Operation `Vad::reset` from shared-vad/src/lib.rs. -/
def Vad.reset (dm : DetectorModel δ) (_v : Vad δ) : Vad δ :=
  { detector := dm.init, probabilities := [], leftovers := [] }

/-- The `self.probabilities.push(self.detector.predict_i16(chunk))` step of
`Vad::consume`: feed one chunk to the detector and record the returned
probability. -/
def Vad.pushChunk (dm : DetectorModel δ) (v : Vad δ) (chunk : List Int) :
    Vad δ :=
  { v with detector := (dm.predict v.detector chunk).1,
           probabilities := v.probabilities ++ [(dm.predict v.detector chunk).2] }

/-- The `while pos + EARSHOT_FRAME <= samples.len()` loop of `Vad::consume`
together with the final `if pos < samples.len()` tail, operating on the
not-yet-processed suffix of `samples`. -/
def Vad.consumeChunks (dm : DetectorModel δ) (v : Vad δ) (samples : List Int) :
    Vad δ :=
  if 256 ≤ samples.length then
    Vad.consumeChunks dm (v.pushChunk dm (samples.take 256)) (samples.drop 256)
  else
    { v with leftovers := v.leftovers ++ samples }
termination_by samples.length
decreasing_by simp only [List.length_drop]; omega

/-- Operation `Vad::consume` from shared-vad/src/lib.rs: fill a pending partial chunk
from `leftovers` first, then feed whole 256-sample chunks, keeping any tail
shorter than 256 samples as the new `leftovers`. -/
def Vad.consume (dm : DetectorModel δ) (v : Vad δ) (samples : List Int) :
    Vad δ :=
  if v.leftovers.isEmpty then
    Vad.consumeChunks dm v samples
  else
    if samples.length < 256 - v.leftovers.length then
      { v with leftovers := v.leftovers ++ samples }
    else
      Vad.consumeChunks dm
        { v.pushChunk dm
            (v.leftovers ++ samples.take (256 - v.leftovers.length)) with
          leftovers := [] }
        (samples.drop (256 - v.leftovers.length))

/-- Operation `Vad::end_p` from shared-vad/src/lib.rs. -/
def Vad.end_p (v : Vad δ) : ℚ :=
  (v.probabilities.getLast?).getD 0

/-- Operation `Vad::probability_at_cs` from shared-vad/src/lib.rs.  The fractional
index `cs·10/16` is computed in `ℚ` in place of `f32`. -/
def Vad.probability_at_cs (v : Vad δ) (cs : Int) : ℚ :=
  let pos : ℚ := (cs : ℚ) * 10 / 16
  if v.probabilities.isEmpty then 0
  else if pos ≤ 0 then v.probabilities.headD 0
  else
    let lo := (⌊pos⌋).toNat
    if v.probabilities.length - 1 ≤ lo then v.end_p
    else
      let lo_val := v.probabilities.getD lo 0
      let hi_val := v.probabilities.getD (lo + 1) 0
      let hi_weight := pos - (lo : ℚ)
      hi_val * hi_weight + lo_val * (1 - hi_weight)

/-- Record `Token` as constructed by session.rs (shared-protocol `Token` record). -/
structure Token where
  text : String
  id : Int
  special : Bool
  start_cs : Int
  end_cs : Int
  probability : ℚ
deriving DecidableEq, Repr

/-- Record `Segment` as constructed by session.rs (shared-protocol `Segment`). -/
structure Segment where
  text : String
  start_cs : Int
  end_cs : Int
  tokens : List Token
  fallback_segmentation : Bool
  end_vad_probability : ℚ
  no_speech_probability : ℚ
deriving DecidableEq, Repr

/-- Record `ServerMessage::Transcription` from shared-protocol/src/lib.rs. -/
structure TranscriptionMsg where
  complete : List Segment
  incomplete : Option Segment
  fast_preview : Option Segment
  advance_cs : Int
deriving DecidableEq, Repr

/-- One token of an engine segment, as exposed by whisper-rs
(`token.to_str_lossy`, `token.token_id`, `token.token_data().t0/t1`,
`token.token_probability`). -/
structure EngineToken where
  text : String
  id : Int
  t0 : Int
  t1 : Int
  probability : ℚ
deriving DecidableEq, Repr

/-- One segment returned by the engine's full pass, as exposed by whisper-rs
(`segment.start_timestamp`, `segment.end_timestamp`,
`segment.no_speech_probability`, per-token access). -/
structure EngineSegment where
  start_timestamp : Int
  end_timestamp : Int
  no_speech_probability : ℚ
  tokens : List EngineToken
deriving DecidableEq, Repr

/-- The session state from session.rs.  The fields that only parametrise the
opaque engine call (language, free-text context, sampling strategy, tuning
knobs, decoder, engine state) carry no information the modelled operations
read back, so they are not part of the state record; the engine itself is
passed to `transcribe`/`transcribe_from` as a function argument. -/
structure Session (δ : Type) where
  accumulated_audio : List Int
  vad : Vad δ
  prompt_tokens : List Int
  advance_cs : Int
  transcribed_up_to_cs : Int
  advanced_since : Bool

/-- Operation `Session::new` from session.rs (the state-relevant fields). -/
def Session.new (dm : DetectorModel δ) : Session δ :=
  { accumulated_audio := []
    vad := Vad.new dm
    prompt_tokens := []
    advance_cs := 0
    transcribed_up_to_cs := 0
    advanced_since := false }

/-- Operation `Session::decode_and_append_opus` from session.rs, after the opaque Opus
decode produced the frame `output` (exactly 960 samples on the success
path): append to the buffer and feed the VAD. -/
def Session.appendFrame (dm : DetectorModel δ) (s : Session δ)
    (output : List Int) : Session δ :=
  { s with accumulated_audio := s.accumulated_audio ++ output
           vad := s.vad.consume dm output }

/-- Operation `Session::advance` from session.rs.  Returns the post-state together
with the `Result`; the error path leaves the state untouched because the
length check precedes every mutation in the source. -/
def Session.advance (dm : DetectorModel δ) (s : Session δ) (timestamp : Int)
    (context : Option Segment) : Session δ × Except String Unit :=
  if timestamp ≤ s.advance_cs then
    (s, Except.ok ())
  else
    let drop_cs := timestamp - s.advance_cs
    let drop_samples := drop_cs.toNat * CS_SAMPLES
    if s.accumulated_audio.length < drop_samples then
      (s, Except.error "cannot advance")
    else
      let prompt_tokens :=
        match context with
        | none => []
        | some seg =>
            (seg.tokens.drop (seg.tokens.length - MAX_PROMPT_TOKENS)).map
              Token.id
      let remaining := s.accumulated_audio.drop drop_samples
      ({ s with prompt_tokens := prompt_tokens
                accumulated_audio := remaining
                advance_cs := timestamp
                advanced_since := true
                vad := (s.vad.reset dm).consume dm remaining },
       Except.ok ())

/-- The token filter-and-rebase step of the extraction loops in session.rs:
drop a token whose buffer-relative `t0` is at or past `bufLenCs`, otherwise
shift its timestamps by `adv` and mark it special when its id is at or
above the end-of-text marker. -/
def keepToken (adv bufLenCs eot : Int) (t : EngineToken) : Option Token :=
  if bufLenCs ≤ t.t0 then none
  else
    some { text := t.text
           id := t.id
           special := decide (eot ≤ t.id)
           start_cs := t.t0 + adv
           end_cs := t.t1 + adv
           probability := t.probability }

/-- Segment text in session.rs: concatenation of the kept non-special token
texts, trimmed. -/
def segmentText (tokens : List Token) : String :=
  (String.join ((tokens.filter fun t => !t.special).map Token.text)).trim

/-- One iteration of the segment-extraction loop of `Session::transcribe`
(session.rs:224-284): filter the tokens, discard the segment when none
survive, otherwise rebase and clamp the timestamps and fill the record. -/
def mkSegment (adv currentEnd bufLenCs eot : Int) (vad : Vad δ)
    (g : EngineSegment) : Option Segment :=
  let tokens := g.tokens.filterMap (keepToken adv bufLenCs eot)
  if tokens.isEmpty then none
  else
    let start_time := g.start_timestamp + adv
    let end_time := min (g.end_timestamp + adv) currentEnd
    some { text := segmentText tokens
           start_cs := start_time
           end_cs := end_time
           tokens := tokens
           fallback_segmentation := decide ((end_time - start_time) % 100 = 0)
           end_vad_probability := vad.probability_at_cs (end_time - adv)
           no_speech_probability := g.no_speech_probability }

/-- The complete/incomplete placement of `Session::transcribe`
(session.rs:286-294): a kept segment at an engine index `i < n_segments-1`
is always complete; the one at the last engine index is complete iff
`is_final`, else it becomes the `incomplete` slot. -/
def splitComplete (mk : EngineSegment → Option Segment) (isFinal : Bool) :
    List EngineSegment → List Segment × Option Segment
  | [] => ([], none)
  | [g] =>
      match mk g with
      | none => ([], none)
      | some seg => if isFinal then ([seg], none) else ([], some seg)
  | g :: g2 :: rest =>
      let r := splitComplete mk isFinal (g2 :: rest)
      match mk g with
      | none => r
      | some seg => (seg :: r.1, r.2)

/-- The buffer length in centiseconds, `accumulated_audio.len() as i64 * 100
/ SAMPLE_RATE as i64` from session.rs (both operands non-negative, so the
truncating i64 division is Nat division). -/
def bufLenCs (s : Session δ) : Int :=
  ((s.accumulated_audio.length * 100) / SAMPLE_RATE : Nat)

/-- Value `current_end_cs` of session.rs:140-141. -/
def currentEndCs (s : Session δ) : Int :=
  s.advance_cs + bufLenCs s

/-- Operation `Session::transcribe` from session.rs.  `engine` stands for the opaque
`whisper_state.full` call followed by reading the segments back; `eot` is
`ctx.token_eot()`.  Returns the post-state and the optional Transcription
message. -/
def Session.transcribe (engine : List Int → List EngineSegment) (eot : Int)
    (s : Session δ) (isFinal : Bool) :
    Session δ × Option TranscriptionMsg :=
  if s.accumulated_audio.length < MIN_SAMPLES then
    (s, none)
  else if isFinal = false ∧ s.advanced_since = false ∧
      currentEndCs s = s.transcribed_up_to_cs then
    (s, none)
  else
    let engineSegs := engine s.accumulated_audio
    let r := splitComplete
      (mkSegment s.advance_cs (currentEndCs s) (bufLenCs s) eot s.vad)
      isFinal engineSegs
    ({ s with transcribed_up_to_cs := currentEndCs s, advanced_since := false },
     some { complete := r.1
            incomplete := r.2
            fast_preview := none
            advance_cs := s.advance_cs })

/-- Rust's `as usize` cast of an i64 value (release semantics): the residue
modulo 2^64. -/
def wrapU64 (n : Int) : Nat := (n % (2 ^ 64)).toNat

/-- One iteration of the extraction loop of `Session::transcribe_from`
(session.rs:375-430): like `mkSegment` but rebased by `from_cs`, clamped to
`from_cs + bufLenCs`, with the VAD probability hard-coded to 0 and no
empty-token discard. -/
def mkSegmentFrom (from_cs bufLenCs eot : Int) (g : EngineSegment) : Segment :=
  let tokens := g.tokens.filterMap (keepToken from_cs bufLenCs eot)
  let start_time := g.start_timestamp + from_cs
  let end_time := min (g.end_timestamp + from_cs) (from_cs + bufLenCs)
  { text := segmentText tokens
    start_cs := start_time
    end_cs := end_time
    tokens := tokens
    fallback_segmentation := decide ((end_time - start_time) % 100 = 0)
    end_vad_probability := 0
    no_speech_probability := g.no_speech_probability }

/-- Operation `Session::transcribe_from` from session.rs.  The offset computation
mirrors `((from_cs - self.advance_cs) as usize) * (CS_SAMPLES as usize)`
with wrapping (release) semantics for the cast and the usize product.  The
final-flag branch of the loop pushes the segment in both arms, so every
engine segment is returned. -/
def Session.transcribe_from (engine : List Int → List EngineSegment)
    (eot : Int) (s : Session δ) (from_cs : Int) (_isFinal : Bool) :
    List Segment :=
  let offset_samples : Nat :=
    (wrapU64 (from_cs - s.advance_cs) * CS_SAMPLES) % (2 ^ 64)
  if s.accumulated_audio.length ≤ offset_samples then []
  else
    let audio_slice := s.accumulated_audio.drop offset_samples
    if audio_slice.length < MIN_SAMPLES then []
    else
      let sliceLenCs : Int := ((audio_slice.length * 100) / SAMPLE_RATE : Nat)
      (engine audio_slice).map (mkSegmentFrom from_cs sliceLenCs eot)

/-- Rust's i32 wrap-around (release semantics): reduce into
`[-2^31, 2^31)`. -/
def wrapI32 (n : Int) : Int := (n + 2 ^ 31) % 2 ^ 32 - 2 ^ 31

/-- The `dynamic_audio_ctx` computation of session.rs:184-190, in i32
arithmetic: `needed = (len as i32 * 1500) / (SAMPLE_RATE as i32 * 30)`,
`aligned = ((needed + 63) / 64) * 64`, result `aligned.max(384)`.  The
division and the alignment stay within i32 range whenever the product is
reduced, so only the cast and the product are wrapped. -/
def dynamicAudioCtx (len : Nat) : Int :=
  let needed := (wrapI32 (wrapI32 len * 1500)).tdiv 480000
  let aligned := ((needed + 63).tdiv 64) * 64
  max aligned 384

/-- Function `normalize_for_comparison` from main.rs: keep alphanumeric and
whitespace characters, lowercase the result. -/
def normalize_for_comparison (s : String) : String :=
  String.mk (((s.data.filter fun c => c.isAlphanum || c.isWhitespace).map
    Char.toLower))

/-- Function `compare_segments` from main.rs:166-196. -/
def compare_segments (original : Segment) (retranscribed : List Segment) :
    Bool × Nat :=
  match retranscribed.head? with
  | none => (false, 0)
  | some first =>
      let orig_norm := normalize_for_comparison original.text.trim
      let first_norm := normalize_for_comparison first.text.trim
      let exact_match := !orig_norm.isEmpty && orig_norm == first_norm
      let orig_tokens :=
        original.tokens.map fun t => normalize_for_comparison t.text
      let new_tokens :=
        (retranscribed.flatMap Segment.tokens).map fun t =>
          normalize_for_comparison t.text
      let n_matching_tokens :=
        ((orig_tokens.zip new_tokens).takeWhile fun p => p.1 == p.2).length
      (exact_match, n_matching_tokens)

/-- The segments carried by one Transcription message: the `complete` list
together with the `incomplete` slot. -/
def emittedSegments (msg : TranscriptionMsg) : List Segment :=
  msg.complete ++ msg.incomplete.toList

/-- A trivial concrete detector model used by the concrete witnesses. -/
def dmUnit : DetectorModel Unit := { init := (), predict := fun _ _ => ((), 0) }

/-! ## Helper lemmas about `Session.advance` -/

/-- The no-op branch of `advance`: `timestamp <= self.advance_cs`. -/
theorem advance_noop {δ} (dm : DetectorModel δ) (s : Session δ) (t : Int)
    (c : Option Segment) (h : t ≤ s.advance_cs) :
    s.advance dm t c = (s, Except.ok ()) := by
  unfold Session.advance
  rw [if_pos h]

/-- The error branch of `advance`: the implied sample drop exceeds the
buffer; the check precedes every mutation, so the state is returned
untouched. -/
theorem advance_error {δ} (dm : DetectorModel δ) (s : Session δ) (t : Int)
    (c : Option Segment) (h : s.advance_cs < t)
    (hlen : s.accumulated_audio.length < (t - s.advance_cs).toNat * CS_SAMPLES) :
    s.advance dm t c = (s, Except.error "cannot advance") := by
  unfold Session.advance
  rw [if_neg (not_le.mpr h), if_pos hlen]

set_option maxRecDepth 8192 in
/-- The success branch of `advance`, as one record equation. -/
theorem advance_success {δ} (dm : DetectorModel δ) (s : Session δ) (t : Int)
    (c : Option Segment) (h : s.advance_cs < t)
    (hlen : (t - s.advance_cs).toNat * CS_SAMPLES ≤ s.accumulated_audio.length) :
    s.advance dm t c =
      ({ accumulated_audio :=
           s.accumulated_audio.drop ((t - s.advance_cs).toNat * CS_SAMPLES)
         vad := (Vad.new dm).consume dm
           (s.accumulated_audio.drop ((t - s.advance_cs).toNat * CS_SAMPLES))
         prompt_tokens :=
           c.elim [] fun seg =>
             (seg.tokens.drop (seg.tokens.length - MAX_PROMPT_TOKENS)).map
               Token.id
         advance_cs := t
         transcribed_up_to_cs := s.transcribed_up_to_cs
         advanced_since := true }, Except.ok ()) := by
  unfold Session.advance
  rw [if_neg (not_le.mpr h), if_neg (not_lt.mpr hlen)]
  cases c <;> rfl

/-! ## Claims C4 and C5 -/

/-- C4: when `advance_cs < timestamp_cs` and the implied drop fits the
buffer, `advance` succeeds; afterwards exactly the first
`(timestamp_cs − advance_cs)·160` samples are removed from the front of the
buffer, `advance_cs` equals `timestamp_cs`, the VAD equals a freshly reset
VAD fed the remaining buffer, `prompt_tokens` is the trailing
`min(n, 224)` token ids of the context segment (empty without context),
and `advanced_since` is true. -/
theorem claim_C4 {δ} (dm : DetectorModel δ) (s : Session δ) (t : Int)
    (c : Option Segment) (h : s.advance_cs < t)
    (hlen : (t - s.advance_cs).toNat * CS_SAMPLES ≤ s.accumulated_audio.length) :
    (s.advance dm t c).2 = Except.ok () ∧
    (s.advance dm t c).1.accumulated_audio =
      s.accumulated_audio.drop ((t - s.advance_cs).toNat * CS_SAMPLES) ∧
    s.accumulated_audio =
      s.accumulated_audio.take ((t - s.advance_cs).toNat * CS_SAMPLES) ++
        (s.advance dm t c).1.accumulated_audio ∧
    (s.advance dm t c).1.advance_cs = t ∧
    (s.advance dm t c).1.vad =
      (Vad.new dm).consume dm (s.advance dm t c).1.accumulated_audio ∧
    (s.advance dm t c).1.prompt_tokens =
      (c.elim [] fun seg =>
        (seg.tokens.drop (seg.tokens.length - MAX_PROMPT_TOKENS)).map
          Token.id) ∧
    (s.advance dm t c).1.prompt_tokens.length =
      (c.elim 0 fun seg => min seg.tokens.length MAX_PROMPT_TOKENS) ∧
    (s.advance dm t c).1.advanced_since = true := by
  rw [advance_success dm s t c h hlen]
  refine ⟨rfl, rfl, (List.take_append_drop _ _).symm, rfl, rfl, rfl, ?_, rfl⟩
  cases c with
  | none => rfl
  | some seg => simp [Option.elim]; omega

/-- A concrete session holding one decoded frame (960 samples), for the
witnesses. -/
def wSession : Session Unit :=
  { accumulated_audio := List.replicate 960 0
    vad := Vad.new dmUnit
    prompt_tokens := []
    advance_cs := 0
    transcribed_up_to_cs := 0
    advanced_since := false }

/-- Witness for C4 at a concrete input: a one-centisecond advance on a
session holding 960 samples. -/
theorem claim_C4_witness :
    (wSession.advance dmUnit 1 none).1.advance_cs = 1 :=
  (claim_C4 dmUnit wSession 1 none (by decide)
    (by show (1 - (0 : Int)).toNat * CS_SAMPLES ≤
          (List.replicate 960 (0 : Int)).length
        rw [List.length_replicate]
        decide)).2.2.2.1

/-- C5: `advance` changes no state off its success path: a timestamp at or
before `advance_cs` is an `Ok` no-op, a drop beyond the buffer returns an
error with the state untouched, and advancing twice to the same timestamp
equals advancing once. -/
theorem claim_C5 {δ} (dm : DetectorModel δ) (s : Session δ) (t : Int)
    (c : Option Segment) :
    (t ≤ s.advance_cs → s.advance dm t c = (s, Except.ok ())) ∧
    (s.advance_cs < t →
      s.accumulated_audio.length < (t - s.advance_cs).toNat * CS_SAMPLES →
      (s.advance dm t c).1 = s ∧
      (s.advance dm t c).2 = Except.error "cannot advance") ∧
    ((s.advance dm t c).1.advance dm t c).1 = (s.advance dm t c).1 ∧
    ((s.advance dm t c).2 = Except.ok () →
      (s.advance dm t c).1.advance dm t c = ((s.advance dm t c).1, Except.ok ())) := by
  refine ⟨fun h => advance_noop dm s t c h, ?_, ?_, ?_⟩
  · intro h hlen
    rw [advance_error dm s t c h hlen]
    exact ⟨rfl, rfl⟩
  · rcases le_or_lt t s.advance_cs with h | h
    · have hn := advance_noop dm s t c h
      rw [hn]
      show (s.advance dm t c).1 = s
      rw [hn]
    · rcases lt_or_le s.accumulated_audio.length
        ((t - s.advance_cs).toNat * CS_SAMPLES) with hlen | hlen
      · have he := advance_error dm s t c h hlen
        rw [he]
        show (s.advance dm t c).1 = s
        rw [he]
      · have hs := advance_success dm s t c h hlen
        have ht : t ≤ (s.advance dm t c).1.advance_cs := by rw [hs]
        rw [advance_noop dm _ t c ht]
  · intro hok
    rcases le_or_lt t s.advance_cs with h | h
    · exact advance_noop dm _ t c
        (by rw [advance_noop dm s t c h]; exact h)
    · rcases lt_or_le s.accumulated_audio.length
        ((t - s.advance_cs).toNat * CS_SAMPLES) with hlen | hlen
      · rw [advance_error dm s t c h hlen] at hok
        exact absurd hok (fun hh => Except.noConfusion hh)
      · have hs := advance_success dm s t c h hlen
        have ht : t ≤ (s.advance dm t c).1.advance_cs := by rw [hs]
        exact advance_noop dm _ t c ht

/-- Witness for C5 at concrete inputs: the no-op branch on a fresh session
and the error branch for an advance past the (empty) buffer. -/
theorem claim_C5_witness :
    ((Session.new dmUnit).advance dmUnit 0 none =
      (Session.new dmUnit, Except.ok ())) ∧
    ((Session.new dmUnit).advance dmUnit 5 none).1 = Session.new dmUnit :=
  ⟨(claim_C5 dmUnit (Session.new dmUnit) 0 none).1 (by decide),
   ((claim_C5 dmUnit (Session.new dmUnit) 5 none).2.1 (by decide)
     (by decide)).1⟩

/-! ## Claim C3 -/

/-- C3: `transcribe(is_final)` returns no message exactly when the buffer
holds fewer than 2880 samples, or `is_final` is false, no advance happened
since the last pass, and `current_end_cs` equals `transcribed_up_to_cs`;
otherwise a successful pass returns a Transcription message. -/
theorem claim_C3 {δ} (engine : List Int → List EngineSegment) (eot : Int)
    (s : Session δ) (isFinal : Bool) :
    (s.transcribe engine eot isFinal).2 = none ↔
      (s.accumulated_audio.length < 2880 ∨
       (isFinal = false ∧ s.advanced_since = false ∧
        currentEndCs s = s.transcribed_up_to_cs)) := by
  unfold Session.transcribe
  split_ifs with h1 h2
  · simp only [MIN_SAMPLES] at h1
    simp [h1]
  · simp [h2]
  · simp only [MIN_SAMPLES] at h1
    simp [h1, h2]

/-! ## Claim C9 -/

/-- The claim-side rounding helper: round a non-negative count up to the
next multiple of 64. -/
def roundUpTo64 (n : Nat) : Nat := ((n + 63) / 64) * 64

/-- C9: with `dynamic_audio_ctx` enabled and the i32 arithmetic free of
overflow, the pass sets
`audio_ctx = max(384, round_up_to_64(len·1500 / 480000))`, and
`round_up_to_64` yields the least multiple of 64 at or above its
argument. -/
theorem claim_C9 (len : Nat) (h : len * 1500 < 2 ^ 31) :
    dynamicAudioCtx len = max 384 (roundUpTo64 (len * 1500 / 480000)) ∧
    64 ∣ roundUpTo64 (len * 1500 / 480000) ∧
    len * 1500 / 480000 ≤ roundUpTo64 (len * 1500 / 480000) ∧
    roundUpTo64 (len * 1500 / 480000) < len * 1500 / 480000 + 64 := by
  refine ⟨?_, ⟨(len * 1500 / 480000 + 63) / 64, by unfold roundUpTo64; ring⟩,
    by unfold roundUpTo64; omega, by unfold roundUpTo64; omega⟩
  have hlen : len < 2 ^ 31 := by nlinarith
  have h1 : wrapI32 (len : Int) = (len : Int) := by
    unfold wrapI32; omega
  have h2 : wrapI32 ((len : Int) * 1500) = ((len * 1500 : Nat) : Int) := by
    unfold wrapI32; push_cast; omega
  have h3 : (((len * 1500 : Nat) : Int)).tdiv 480000 =
      ((len * 1500 / 480000 : Nat) : Int) := rfl
  have h4 : ((((len * 1500 / 480000 : Nat) : Int)) + 63).tdiv 64 =
      (((len * 1500 / 480000 + 63) / 64 : Nat) : Int) := rfl
  simp only [dynamicAudioCtx, roundUpTo64]
  rw [h1, h2, h3, h4]
  push_cast
  omega

/-- Witness for C9 at a concrete input: a 3-second buffer (48000 samples)
needs 150 audio-context slots, which aligns to 192 and clamps to 384. -/
theorem claim_C9_witness :
    dynamicAudioCtx 48000 = max 384 (roundUpTo64 (48000 * 1500 / 480000)) ∧
    64 ∣ roundUpTo64 (48000 * 1500 / 480000) ∧
    48000 * 1500 / 480000 ≤ roundUpTo64 (48000 * 1500 / 480000) ∧
    roundUpTo64 (48000 * 1500 / 480000) < 48000 * 1500 / 480000 + 64 :=
  claim_C9 48000 (by norm_num)

/-! ## Claim C6: VAD bookkeeping -/

/-- A sequence of `consume` calls, oldest first. -/
def Vad.consumeAll (dm : DetectorModel δ) (v : Vad δ) (calls : List (List Int)) :
    Vad δ :=
  calls.foldl (fun w xs => w.consume dm xs) v

/-- Chunk counting for the inner loop: each full 256-sample chunk becomes
one probability, the tail lands in `leftovers`. -/
theorem consumeChunks_count (dm : DetectorModel δ) :
    ∀ (n : Nat) (v : Vad δ) (xs : List Int), xs.length ≤ n →
      (Vad.consumeChunks dm v xs).probabilities.length =
        v.probabilities.length + xs.length / 256 ∧
      (Vad.consumeChunks dm v xs).leftovers.length =
        v.leftovers.length + xs.length % 256 := by
  intro n
  induction n with
  | zero =>
      intro v xs h
      rw [Vad.consumeChunks]
      rw [if_neg (by omega)]
      simp
      omega
  | succ n ih =>
      intro v xs h
      rw [Vad.consumeChunks]
      by_cases h256 : 256 ≤ xs.length
      · rw [if_pos h256]
        have hrec := ih (v.pushChunk dm (xs.take 256)) (xs.drop 256)
          (by simp [List.length_drop]; omega)
        refine ⟨?_, ?_⟩
        · rw [hrec.1]
          simp [Vad.pushChunk, List.length_drop]
          omega
        · rw [hrec.2]
          simp [Vad.pushChunk, List.length_drop]
          omega
      · rw [if_neg h256]
        simp
        omega

/-- Sample counting for one `consume` call, assuming the leftover invariant
(`leftovers.len < 256`). -/
theorem consume_count (dm : DetectorModel δ) (v : Vad δ) (xs : List Int)
    (hlt : v.leftovers.length < 256) :
    (v.consume dm xs).probabilities.length =
      v.probabilities.length + (v.leftovers.length + xs.length) / 256 ∧
    (v.consume dm xs).leftovers.length =
      (v.leftovers.length + xs.length) % 256 := by
  unfold Vad.consume
  by_cases hE : v.leftovers.isEmpty
  · rw [if_pos hE]
    have h0 : v.leftovers.length = 0 := by
      rw [List.isEmpty_iff] at hE
      simp [hE]
    have hc := consumeChunks_count dm xs.length v xs le_rfl
    rw [hc.1, hc.2, h0]
    omega
  · rw [if_neg hE]
    have h0 : v.leftovers.length ≠ 0 := by
      intro hz
      exact hE (by rwa [List.isEmpty_iff, ← List.length_eq_zero])
    by_cases hN : xs.length < 256 - v.leftovers.length
    · rw [if_pos hN]
      simp
      omega
    · rw [if_neg hN]
      have hc := consumeChunks_count dm (xs.drop (256 - v.leftovers.length)).length
        { v.pushChunk dm (v.leftovers ++ xs.take (256 - v.leftovers.length)) with
          leftovers := [] }
        (xs.drop (256 - v.leftovers.length)) le_rfl
      rw [hc.1, hc.2]
      simp [Vad.pushChunk, List.length_drop]
      omega

/-- C6: after any sequence of `consume` calls totalling `N` samples on a
fresh (or freshly reset) VAD ring, exactly `⌊N/256⌋` probabilities are
stored and `N mod 256` samples are held as leftovers; in particular the
leftover count stays below 256, and resetting any ring is the same as
starting from a new one. -/
theorem claim_C6 {δ} (dm : DetectorModel δ) (calls : List (List Int)) :
    ((Vad.new dm).consumeAll dm calls).probabilities.length =
      (calls.map List.length).sum / 256 ∧
    ((Vad.new dm).consumeAll dm calls).leftovers.length =
      (calls.map List.length).sum % 256 ∧
    ((Vad.new dm).consumeAll dm calls).leftovers.length < 256 ∧
    ∀ (v0 : Vad δ), (v0.reset dm).consumeAll dm calls =
      (Vad.new dm).consumeAll dm calls := by
  have main : ∀ (calls : List (List Int)) (v : Vad δ) (N : Nat),
      v.probabilities.length = N / 256 → v.leftovers.length = N % 256 →
      (v.consumeAll dm calls).probabilities.length =
        (N + (calls.map List.length).sum) / 256 ∧
      (v.consumeAll dm calls).leftovers.length =
        (N + (calls.map List.length).sum) % 256 := by
    intro calls
    induction calls with
    | nil => intro v N h1 h2; simpa [Vad.consumeAll] using ⟨h1, h2⟩
    | cons xs rest ih =>
        intro v N h1 h2
        have hlt : v.leftovers.length < 256 := by omega
        have hc := consume_count dm v xs hlt
        have step := ih (v.consume dm xs) (N + xs.length)
          (by rw [hc.1, h1, h2]; omega) (by rw [hc.2, h2]; omega)
        refine ⟨?_, ?_⟩
        · rw [show (v.consumeAll dm (xs :: rest)) =
            ((v.consume dm xs).consumeAll dm rest) from rfl]
          rw [step.1]
          simp
          omega
        · rw [show (v.consumeAll dm (xs :: rest)) =
            ((v.consume dm xs).consumeAll dm rest) from rfl]
          rw [step.2]
          simp
          omega
  have base := main calls (Vad.new dm) 0 rfl rfl
  refine ⟨by rw [base.1]; omega, by rw [base.2]; omega,
    by rw [base.2]; omega, fun v0 => rfl⟩

/-! ## Claim C7: VAD interpolation -/

/-- C7: `probability_at_cs` returns 0 on the empty ring; otherwise, with
fractional index `p = cs·10/16`, it returns the first stored sample when
`p ≤ 0`, the last stored sample when `⌊p⌋ ≥ len − 1`, and the linear
interpolation `probs[⌊p⌋]·(1−w) + probs[⌊p⌋+1]·w` with `w = p − ⌊p⌋`
in between. -/
theorem claim_C7 {δ} (v : Vad δ) (cs : Int) :
    (v.probabilities = [] → v.probability_at_cs cs = 0) ∧
    (v.probabilities ≠ [] → (cs : ℚ) * 10 / 16 ≤ 0 →
      v.probability_at_cs cs = v.probabilities.headD 0) ∧
    (v.probabilities ≠ [] → 0 < (cs : ℚ) * 10 / 16 →
      v.probabilities.length - 1 ≤ (⌊(cs : ℚ) * 10 / 16⌋).toNat →
      v.probability_at_cs cs = (v.probabilities.getLast?).getD 0) ∧
    (v.probabilities ≠ [] → 0 < (cs : ℚ) * 10 / 16 →
      (⌊(cs : ℚ) * 10 / 16⌋).toNat < v.probabilities.length - 1 →
      v.probability_at_cs cs =
        v.probabilities.getD (⌊(cs : ℚ) * 10 / 16⌋).toNat 0 *
          (1 - Int.fract ((cs : ℚ) * 10 / 16)) +
        v.probabilities.getD ((⌊(cs : ℚ) * 10 / 16⌋).toNat + 1) 0 *
          Int.fract ((cs : ℚ) * 10 / 16)) := by
  unfold Vad.probability_at_cs
  refine ⟨?_, ?_, ?_, ?_⟩
  · intro h
    rw [if_pos (by simp [h])]
  · intro h hp
    rw [if_neg (by simpa [List.isEmpty_iff] using h), if_pos hp]
  · intro h hp hlast
    rw [if_neg (by simpa [List.isEmpty_iff] using h),
      if_neg (not_le.mpr hp), if_pos hlast]
    rfl
  · intro h hp hmid
    rw [if_neg (by simpa [List.isEmpty_iff] using h),
      if_neg (not_le.mpr hp), if_neg (not_le.mpr hmid)]
    have hfl : ((⌊(cs : ℚ) * 10 / 16⌋.toNat : ℚ)) = (⌊(cs : ℚ) * 10 / 16⌋ : ℚ) := by
      have : (0 : Int) ≤ ⌊(cs : ℚ) * 10 / 16⌋ :=
        Int.floor_nonneg.mpr (le_of_lt hp)
      exact_mod_cast congrArg (fun z : Int => (z : ℚ)) (Int.toNat_of_nonneg this)
    dsimp only
    rw [hfl, ← Int.self_sub_floor]
    ring

/-- A concrete two-sample ring for the C7 witness. -/
def witVad : Vad Unit :=
  { detector := (), probabilities := [(1 : ℚ)/2, 3/4], leftovers := [] }

/-- Witness for C7 at a concrete input: interpolation inside the ring at
`cs = 1` (fractional index 5/8). -/
theorem claim_C7_witness :
    witVad.probability_at_cs 1 =
      witVad.probabilities.getD (⌊((1 : Int) : ℚ) * 10 / 16⌋).toNat 0 *
        (1 - Int.fract (((1 : Int) : ℚ) * 10 / 16)) +
      witVad.probabilities.getD ((⌊((1 : Int) : ℚ) * 10 / 16⌋).toNat + 1) 0 *
        Int.fract (((1 : Int) : ℚ) * 10 / 16) :=
  (claim_C7 witVad 1).2.2.2 (by decide) (by norm_num)
    (by norm_num [witVad])

/-! ## Claim C8: two-stroke comparison -/

/-- Claim-side definition: the length of the longest common leading run of
two lists. -/
def commonLeadLen : List String → List String → Nat
  | a :: as, b :: bs => if a = b then commonLeadLen as bs + 1 else 0
  | _, _ => 0

/-- The `zip`/`take_while` count in `compare_segments` computes the longest
common leading run. -/
theorem zip_takeWhile_count (as bs : List String) :
    ((as.zip bs).takeWhile fun p => p.1 == p.2).length = commonLeadLen as bs := by
  induction as generalizing bs with
  | nil => cases bs <;> simp [commonLeadLen]
  | cons a as ih =>
      cases bs with
      | nil => simp [commonLeadLen]
      | cons b bs =>
          by_cases hab : a = b <;>
            simp [commonLeadLen, hab, List.takeWhile_cons, ih]

/-- Lemma: `commonLeadLen` is a common leading run: both lists agree on that many
leading elements. -/
theorem commonLeadLen_take (as bs : List String) :
    as.take (commonLeadLen as bs) = bs.take (commonLeadLen as bs) := by
  induction as generalizing bs with
  | nil => cases bs <;> simp [commonLeadLen]
  | cons a as ih =>
      cases bs with
      | nil => simp [commonLeadLen]
      | cons b bs =>
          by_cases hab : a = b <;> simp [commonLeadLen, hab, ih]

/-- Lemma: `commonLeadLen` is the longest such run. -/
theorem commonLeadLen_longest (as bs : List String) (k : Nat)
    (hk : k ≤ as.length) (h : as.take k = bs.take k) :
    k ≤ commonLeadLen as bs := by
  induction as generalizing bs k with
  | nil => simp at hk; omega
  | cons a as ih =>
      cases k with
      | zero => omega
      | succ k =>
          cases bs with
          | nil => simp at h
          | cons b bs =>
              simp [List.take_succ_cons] at h
              simp [commonLeadLen, h.1]
              have := ih bs k (by simp at hk; omega) h.2
              omega

/-- C8: `exact_match` holds iff the re-transcription list is non-empty and
the normalised trimmed texts of the original and the first re-transcribed
segment are equal and non-empty; `n_matching_tokens` is the length of the
longest common leading run of the normalised token texts of the original
and of all re-transcribed segments concatenated in order. -/
theorem claim_C8 (o : Segment) (rs : List Segment) :
    ((compare_segments o rs).1 = true ↔
      ∃ first, rs.head? = some first ∧
        normalize_for_comparison o.text.trim ≠ "" ∧
        normalize_for_comparison o.text.trim =
          normalize_for_comparison first.text.trim) ∧
    (compare_segments o rs).2 =
      commonLeadLen
        (o.tokens.map fun t => normalize_for_comparison t.text)
        ((rs.flatMap Segment.tokens).map fun t =>
          normalize_for_comparison t.text) ∧
    (o.tokens.map fun t => normalize_for_comparison t.text).take
        (compare_segments o rs).2 =
      ((rs.flatMap Segment.tokens).map fun t =>
        normalize_for_comparison t.text).take (compare_segments o rs).2 ∧
    (∀ k, k ≤ o.tokens.length →
      (o.tokens.map fun t => normalize_for_comparison t.text).take k =
        ((rs.flatMap Segment.tokens).map fun t =>
          normalize_for_comparison t.text).take k →
      k ≤ (compare_segments o rs).2) := by
  cases rs with
  | nil =>
      refine ⟨by simp [compare_segments], by simp [compare_segments, commonLeadLen], by simp [compare_segments], ?_⟩
      intro k hk h
      simp [compare_segments]
      rcases Nat.eq_zero_or_pos k with h0 | h0
      · omega
      · exfalso
        simp only [List.flatMap_nil, List.map_nil, List.take_nil] at h
        rw [List.take_eq_nil_iff] at h
        rcases h with h | h
        · omega
        · rw [List.map_eq_nil_iff] at h
          rw [h] at hk
          simp at hk
          omega
  | cons first rest =>
      have hsplit : compare_segments o (first :: rest) =
          (!(normalize_for_comparison o.text.trim).isEmpty &&
            (normalize_for_comparison o.text.trim ==
              normalize_for_comparison first.text.trim),
           commonLeadLen
             (o.tokens.map fun t => normalize_for_comparison t.text)
             (((first :: rest).flatMap Segment.tokens).map fun t =>
               normalize_for_comparison t.text)) := by
        unfold compare_segments
        simp only [List.head?_cons]
        rw [zip_takeWhile_count]
      rw [hsplit]
      refine ⟨?_, rfl, commonLeadLen_take _ _, ?_⟩
      · have hiff : ∀ s : String, s.isEmpty = false ↔ s ≠ "" := by
          intro s
          rw [Bool.eq_false_iff, Ne, String.isEmpty_iff]
        simp only [Bool.and_eq_true, Bool.not_eq_true', beq_iff_eq,
          List.head?_cons, Option.some.injEq]
        constructor
        · rintro ⟨hne, heq⟩
          exact ⟨first, rfl, (hiff _).mp hne, heq⟩
        · rintro ⟨f, rfl, hne, heq⟩
          exact ⟨(hiff _).mpr hne, heq⟩
      · intro k hk h
        exact commonLeadLen_longest _ _ k (by simpa using hk) h

/-- Concrete token for the C8 witness. -/
def witTok (s : String) : Token :=
  { text := s, id := 1, special := false, start_cs := 0, end_cs := 0,
    probability := 0 }

/-- Original segment for the C8 witness. -/
def witSegO : Segment :=
  { text := " Hello, world. ", start_cs := 0, end_cs := 1,
    tokens := [witTok " Hello", witTok " world"],
    fallback_segmentation := false, end_vad_probability := 0,
    no_speech_probability := 0 }

/-- Re-transcribed segment for the C8 witness. -/
def witSegR : Segment :=
  { text := "hello WORLD", start_cs := 0, end_cs := 1,
    tokens := [witTok " hello", witTok " World"],
    fallback_segmentation := false, end_vad_probability := 0,
    no_speech_probability := 0 }

/-- Witness for C8 at a concrete input: the maximality conjunct applied at
`k = 2` for two token streams that agree after normalisation. -/
theorem claim_C8_witness :
    2 ≤ (compare_segments witSegO [witSegR]).2 :=
  (claim_C8 witSegO [witSegR]).2.2.2 2 (by decide) (by decide)

/-! ## Claim C2: completion policy -/

/-- The segment builder `transcribe` uses, with the session's own
parameters. -/
def sessionMk {δ} (s : Session δ) (eot : Int) : EngineSegment → Option Segment :=
  mkSegment s.advance_cs (currentEndCs s) (bufLenCs s) eot s.vad

/-- Closed form of the complete/incomplete placement: when final,
everything kept is complete; otherwise the kept segments of all but the
last engine segment are complete and the last engine segment, if kept,
fills the incomplete slot. -/
theorem splitComplete_eq (mk : EngineSegment → Option Segment)
    (isFinal : Bool) (l : List EngineSegment) :
    splitComplete mk isFinal l =
      ((if isFinal then l else l.dropLast).filterMap mk,
       if isFinal then none else l.getLast?.bind mk) := by
  induction l with
  | nil => cases isFinal <;> simp [splitComplete]
  | cons g tl ih =>
      cases tl with
      | nil =>
          cases hm : mk g <;> cases isFinal <;>
            simp [splitComplete, hm]
      | cons g2 rest =>
          cases hm : mk g <;> cases isFinal <;>
            simp [splitComplete, hm, ih, List.dropLast_cons₂,
              List.getLast?_cons_cons]

/-- Membership inversion for the split: every emitted segment comes from
some engine segment it was built from. -/
theorem mem_splitComplete (mk : EngineSegment → Option Segment)
    (isFinal : Bool) (l : List EngineSegment) (seg : Segment)
    (h : seg ∈ (splitComplete mk isFinal l).1 ∨
      (splitComplete mk isFinal l).2 = some seg) :
    ∃ g ∈ l, mk g = some seg := by
  rw [splitComplete_eq] at h
  rcases h with h | h
  · simp only at h
    rw [List.mem_filterMap] at h
    obtain ⟨g, hg, hmk⟩ := h
    refine ⟨g, ?_, hmk⟩
    rcases isFinal with _ | _
    · exact (List.dropLast_sublist l).subset (by simpa using hg)
    · simpa using hg
  · simp only at h
    rcases isFinal with _ | _
    · simp only [if_neg Bool.false_ne_true] at h
      obtain ⟨g, hg, hmk⟩ := Option.bind_eq_some.mp h
      exact ⟨g, List.mem_of_mem_getLast? hg, hmk⟩
    · simp at h

/-- The claim's completion policy, phrased over the kept segments: all but
the last kept segment are complete, the last kept segment is complete iff
final and the incomplete slot otherwise. -/
def claimC2Policy (mk : EngineSegment → Option Segment) (isFinal : Bool)
    (l : List EngineSegment) (complete : List Segment)
    (incomplete : Option Segment) : Prop :=
  if isFinal then complete = l.filterMap mk ∧ incomplete = none
  else if (l.filterMap mk).isEmpty then complete = [] ∧ incomplete = none
  else complete = (l.filterMap mk).dropLast ∧
    incomplete = (l.filterMap mk).getLast?

/-- A transcription pass that passes both guards, in closed form. -/
theorem transcribe_run {δ} (engine : List Int → List EngineSegment)
    (eot : Int) (s : Session δ) (isFinal : Bool)
    (h1 : ¬ s.accumulated_audio.length < MIN_SAMPLES)
    (h2 : ¬ (isFinal = false ∧ s.advanced_since = false ∧
      currentEndCs s = s.transcribed_up_to_cs)) :
    (s.transcribe engine eot isFinal).2 =
      some { complete := (splitComplete (sessionMk s eot) isFinal
               (engine s.accumulated_audio)).1,
             incomplete := (splitComplete (sessionMk s eot) isFinal
               (engine s.accumulated_audio)).2,
             fast_preview := none,
             advance_cs := s.advance_cs } := by
  unfold Session.transcribe
  rw [if_neg h1, if_neg h2]
  rfl

/-- Engine output for the C2 counterexample: the second (last) engine
segment's only token starts exactly at the end of the buffer, so the
filter drops it and the segment is not kept. -/
def cexSeg0 : EngineSegment :=
  { start_timestamp := 0, end_timestamp := 10, no_speech_probability := 0,
    tokens := [{ text := " hi", id := 5, t0 := 0, t1 := 5, probability := 0 }] }

/-- Second engine segment of the C2 counterexample (dropped by the token
filter: its token has `t0 = 18 = buffer_len_cs`). -/
def cexSeg1 : EngineSegment :=
  { start_timestamp := 12, end_timestamp := 20, no_speech_probability := 0,
    tokens := [{ text := " yo", id := 6, t0 := 18, t1 := 20, probability := 0 }] }

/-- The engine of the C2 counterexample. -/
def cexEngine : List Int → List EngineSegment := fun _ => [cexSeg0, cexSeg1]

/-- The session of the C2 counterexample: 2880 samples (18 cs) of audio,
`advanced_since` set so the pass runs. -/
def cexSession : Session Unit :=
  { accumulated_audio := List.replicate 2880 0
    vad := Vad.new dmUnit
    prompt_tokens := []
    advance_cs := 0
    transcribed_up_to_cs := 0
    advanced_since := true }

/-- The counterexample session's buffer holds 2880 samples. -/
theorem cex_len : cexSession.accumulated_audio.length = 2880 := by
  rw [show cexSession.accumulated_audio = List.replicate 2880 0 from rfl,
    List.length_replicate]

/-- The counterexample session passes the size guard. -/
theorem cex_guard1 : ¬ cexSession.accumulated_audio.length < MIN_SAMPLES := by
  rw [cex_len]
  decide

/-- The counterexample session passes the staleness guard
(`advanced_since` is set). -/
theorem cex_guard2 : ¬ ((false : Bool) = false ∧
    cexSession.advanced_since = false ∧
    currentEndCs cexSession = cexSession.transcribed_up_to_cs) := by
  simp [show cexSession.advanced_since = true from rfl]

/-- The counterexample session's buffer is 18 cs long. -/
theorem cex_bufLen : bufLenCs cexSession = 18 := by
  unfold bufLenCs
  rw [cex_len]
  decide

/-- The counterexample session's segment builder in small closed form. -/
theorem cex_mk : sessionMk cexSession 50000 =
    mkSegment 0 18 18 50000 (Vad.new dmUnit) := by
  unfold sessionMk currentEndCs
  rw [cex_bufLen,
    show cexSession.advance_cs = 0 from rfl,
    show cexSession.vad = Vad.new dmUnit from rfl,
    show ((0 : Int) + 18) = 18 from rfl]

/-- The counterexample session's segment builder. -/
def cexMk : EngineSegment → Option Segment :=
  mkSegment 0 18 18 50000 (Vad.new dmUnit)

/-- The Transcription message the counterexample pass emits. -/
def cexMsg : TranscriptionMsg :=
  { complete := (splitComplete cexMk false [cexSeg0, cexSeg1]).1,
    incomplete := (splitComplete cexMk false [cexSeg0, cexSeg1]).2,
    fast_preview := none,
    advance_cs := 0 }

set_option maxRecDepth 8192 in
/-- Counterexample to C2 as stated: at this concrete input, with
`is_final = false`, the pass emits `cexMsg`, the kept-segment list is
non-empty, yet `incomplete` is empty — the last kept segment sits in
`complete` because the last *engine* segment was dropped by the token
filter — so the claimed policy (all but the last kept segment complete,
the last kept one incomplete when not final) is violated. -/
theorem claim_C2_counterexample :
    (cexSession.transcribe cexEngine 50000 false).2 = some cexMsg ∧
    [cexSeg0, cexSeg1].filterMap cexMk ≠ [] ∧
    cexMsg.incomplete = none ∧
    ¬ claimC2Policy cexMk false [cexSeg0, cexSeg1]
        cexMsg.complete cexMsg.incomplete := by
  refine ⟨?_, by decide, by decide, ?_⟩
  · rw [transcribe_run cexEngine 50000 cexSession false cex_guard1 cex_guard2,
      show cexEngine cexSession.accumulated_audio = [cexSeg0, cexSeg1]
        from rfl,
      cex_mk,
      show cexSession.advance_cs = 0 from rfl]
    rfl
  · unfold claimC2Policy
    decide

/-- C2 amended: in every Transcription message, `complete` holds the kept
segments of every engine segment except the last one (of all of them when
`is_final`), and `incomplete` is the kept form of the last engine segment
when not final (so a kept segment can fall out of the message entirely
only if every one of its tokens is filtered); hence at most one incomplete
segment per message and none when final. -/
theorem claim_C2 {δ} (engine : List Int → List EngineSegment) (eot : Int)
    (s : Session δ) (isFinal : Bool) (msg : TranscriptionMsg)
    (hmsg : (s.transcribe engine eot isFinal).2 = some msg) :
    msg.complete =
      ((if isFinal then engine s.accumulated_audio
        else (engine s.accumulated_audio).dropLast).filterMap
          (sessionMk s eot)) ∧
    msg.incomplete =
      (if isFinal then none
       else (engine s.accumulated_audio).getLast?.bind (sessionMk s eot)) ∧
    (isFinal = true → msg.incomplete = none) := by
  unfold Session.transcribe at hmsg
  split_ifs at hmsg with h1 h2
  have hrec : ({ complete :=
                   (splitComplete (mkSegment s.advance_cs (currentEndCs s)
                     (bufLenCs s) eot s.vad) isFinal
                     (engine s.accumulated_audio)).1,
                 incomplete :=
                   (splitComplete (mkSegment s.advance_cs (currentEndCs s)
                     (bufLenCs s) eot s.vad) isFinal
                     (engine s.accumulated_audio)).2,
                 fast_preview := none,
                 advance_cs := s.advance_cs } : TranscriptionMsg) = msg :=
    Option.some.inj hmsg
  subst hrec
  simp only [splitComplete_eq]
  refine ⟨rfl, rfl, ?_⟩
  intro hf
  simp [hf]

/-- Witness for the amended C2 at a concrete input: the counterexample
session with `is_final = false` yields `complete` from the engine list
without its last element and an empty incomplete slot. -/
theorem claim_C2_witness :
    ∃ msg, (cexSession.transcribe cexEngine 50000 false).2 = some msg ∧
      msg.complete = ([cexSeg0, cexSeg1].dropLast.filterMap
        (sessionMk cexSession 50000)) ∧
      msg.incomplete = ([cexSeg0, cexSeg1].getLast?.bind
        (sessionMk cexSession 50000)) := by
  have hrun := transcribe_run cexEngine 50000 cexSession false
    cex_guard1 cex_guard2
  refine ⟨_, hrun, ?_, ?_⟩
  · exact (claim_C2 cexEngine 50000 cexSession false _ hrun).1
  · exact (claim_C2 cexEngine 50000 cexSession false _ hrun).2.1

/-! ## Claim C1: timestamp bounds of emitted segments -/

/-- Bounds of one built segment.  The engine well-formedness hypotheses are
the engine contract: buffer-relative timestamps are non-negative, a
segment ends no earlier than it starts, and a segment starts no later than
its tokens. -/
theorem mkSegment_bounds {δ} {adv currentEnd bufLenCs eot : Int}
    {vad : Vad δ} {g : EngineSegment} {seg : Segment}
    (hmk : mkSegment adv currentEnd bufLenCs eot vad g = some seg)
    (hce : currentEnd = adv + bufLenCs)
    (hg0 : 0 ≤ g.start_timestamp)
    (hg1 : g.start_timestamp ≤ g.end_timestamp)
    (hgt : ∀ t ∈ g.tokens, g.start_timestamp ≤ t.t0) :
    adv ≤ seg.start_cs ∧ seg.end_cs ≤ currentEnd ∧
    seg.start_cs ≤ seg.end_cs ∧
    seg.end_cs = min (g.end_timestamp + adv) currentEnd := by
  unfold mkSegment at hmk
  by_cases hemp : (g.tokens.filterMap (keepToken adv bufLenCs eot)).isEmpty
  · rw [if_pos hemp] at hmk
    exact absurd hmk (by simp)
  · rw [if_neg hemp] at hmk
    have hne : g.tokens.filterMap (keepToken adv bufLenCs eot) ≠ [] := by
      simpa [List.isEmpty_iff] using hemp
    obtain ⟨tok, htokmem⟩ := List.exists_mem_of_ne_nil _ hne
    obtain ⟨t, htmem, hkeep⟩ := List.mem_filterMap.mp htokmem
    have ht0 : t.t0 < bufLenCs := by
      unfold keepToken at hkeep
      by_cases hb : bufLenCs ≤ t.t0
      · rw [if_pos hb] at hkeep
        exact absurd hkeep (by simp)
      · omega
    have hstart_le : g.start_timestamp ≤ t.t0 := hgt t htmem
    have hrec := Option.some.inj hmk
    subst hrec
    refine ⟨?_, ?_, ?_, rfl⟩
    · show adv ≤ g.start_timestamp + adv
      omega
    · exact min_le_right _ _
    · show g.start_timestamp + adv ≤ min (g.end_timestamp + adv) currentEnd
      refine le_min (by omega) (by omega)

/-- C1: every segment a pass emits (in `complete` or as `incomplete`)
satisfies `start_cs ≥ advance_cs`, `end_cs ≤ current_end_cs` and
`start_cs ≤ end_cs`, and its `end_cs` is
`min(engine_end + advance_cs, current_end_cs)` for the engine segment it
was built from (given the engine contract on its timestamps). -/
theorem claim_C1 {δ} (engine : List Int → List EngineSegment) (eot : Int)
    (s : Session δ) (isFinal : Bool) (msg : TranscriptionMsg) (seg : Segment)
    (hwf : ∀ g ∈ engine s.accumulated_audio,
      0 ≤ g.start_timestamp ∧ g.start_timestamp ≤ g.end_timestamp ∧
      ∀ t ∈ g.tokens, g.start_timestamp ≤ t.t0)
    (hmsg : (s.transcribe engine eot isFinal).2 = some msg)
    (hseg : seg ∈ emittedSegments msg) :
    s.advance_cs ≤ seg.start_cs ∧ seg.end_cs ≤ currentEndCs s ∧
    seg.start_cs ≤ seg.end_cs ∧
    ∃ g ∈ engine s.accumulated_audio,
      seg.end_cs = min (g.end_timestamp + s.advance_cs) (currentEndCs s) := by
  unfold Session.transcribe at hmsg
  split_ifs at hmsg with h1 h2
  have hrec : ({ complete :=
                   (splitComplete (mkSegment s.advance_cs (currentEndCs s)
                     (bufLenCs s) eot s.vad) isFinal
                     (engine s.accumulated_audio)).1,
                 incomplete :=
                   (splitComplete (mkSegment s.advance_cs (currentEndCs s)
                     (bufLenCs s) eot s.vad) isFinal
                     (engine s.accumulated_audio)).2,
                 fast_preview := none,
                 advance_cs := s.advance_cs } : TranscriptionMsg) = msg :=
    Option.some.inj hmsg
  subst hrec
  unfold emittedSegments at hseg
  rw [List.mem_append] at hseg
  have hsome : seg ∈ (splitComplete (mkSegment s.advance_cs (currentEndCs s)
      (bufLenCs s) eot s.vad) isFinal (engine s.accumulated_audio)).1 ∨
      (splitComplete (mkSegment s.advance_cs (currentEndCs s)
        (bufLenCs s) eot s.vad) isFinal (engine s.accumulated_audio)).2 =
        some seg := by
    rcases hseg with hseg | hseg
    · exact Or.inl hseg
    · right
      rcases hopt : (splitComplete (mkSegment s.advance_cs (currentEndCs s)
          (bufLenCs s) eot s.vad) isFinal (engine s.accumulated_audio)).2 with
        _ | x
      · rw [hopt] at hseg
        simp at hseg
      · rw [hopt] at hseg
        simp at hseg
        rw [hseg]
  obtain ⟨g, hgl, hmk⟩ := mem_splitComplete _ _ _ _ hsome
  obtain ⟨hg0, hg1, hgt⟩ := hwf g hgl
  have hb := mkSegment_bounds hmk rfl hg0 hg1 hgt
  exact ⟨hb.1, hb.2.1, hb.2.2.1, ⟨g, hgl, hb.2.2.2⟩⟩

/-- The transcription pass at the concrete input emits exactly `cexMsg`. -/
theorem cex_transcribe :
    (cexSession.transcribe cexEngine 50000 false).2 = some cexMsg := by
  rw [transcribe_run cexEngine 50000 cexSession false cex_guard1 cex_guard2,
    show cexEngine cexSession.accumulated_audio = [cexSeg0, cexSeg1]
      from rfl,
    cex_mk,
    show cexSession.advance_cs = 0 from rfl]
  rfl

/-- The single segment emitted at the concrete input. -/
def cexKept : Segment :=
  (cexMk cexSeg0).getD
    { text := "", start_cs := 0, end_cs := 0, tokens := [],
      fallback_segmentation := false, end_vad_probability := 0,
      no_speech_probability := 0 }

/-- Witness for C1 at a concrete input: the bounds hold for the one
segment the counterexample session emits. -/
theorem claim_C1_witness :
    cexSession.advance_cs ≤ cexKept.start_cs ∧
    cexKept.end_cs ≤ currentEndCs cexSession ∧
    cexKept.start_cs ≤ cexKept.end_cs ∧
    ∃ g ∈ cexEngine cexSession.accumulated_audio,
      cexKept.end_cs =
        min (g.end_timestamp + cexSession.advance_cs)
          (currentEndCs cexSession) :=
  claim_C1 cexEngine 50000 cexSession false cexMsg cexKept (by decide)
    cex_transcribe
    (by rw [show emittedSegments cexMsg = [cexKept] from rfl]
        exact List.mem_singleton.mpr rfl)

/-! ## Claim C10: totality of the two-stroke slice offset -/

/-- C10: `transcribe_from` never slices out of bounds under the wrapping
(release) semantics of the `as usize` cast: for a `from_cs` before
`advance_cs` (reachable when an Advance is drained between the
Transcription and the two-stroke re-pass) the wrapped offset lands far past
any realisable buffer and the call returns `Ok []` without invoking the
engine; for `from_cs` at or past `advance_cs`, an offset at or past the
buffer end, or a remaining slice shorter than 3 frames, also return
`Ok []` without invoking the engine.  The magnitude bounds cover every
value realisable in the program (buffer bytes below `isize::MAX`,
timestamps below 2^56 cs). -/
theorem claim_C10 {δ} (engine : List Int → List EngineSegment) (eot : Int)
    (s : Session δ) (from_cs : Int) (isFinal : Bool) :
    (from_cs < s.advance_cs → s.advance_cs - from_cs ≤ 2 ^ 56 →
      s.accumulated_audio.length ≤ 2 ^ 62 →
      s.transcribe_from engine eot from_cs isFinal = []) ∧
    (s.advance_cs ≤ from_cs → from_cs - s.advance_cs ≤ 2 ^ 56 →
      s.accumulated_audio.length <
        (from_cs - s.advance_cs).toNat * CS_SAMPLES + MIN_SAMPLES →
      s.transcribe_from engine eot from_cs isFinal = []) := by
  constructor
  · intro h1 h2 h3
    simp only [Session.transcribe_from]
    have hwk : wrapU64 (from_cs - s.advance_cs) =
        2 ^ 64 - (s.advance_cs - from_cs).toNat := by
      unfold wrapU64
      omega
    have hk1 : 1 ≤ (s.advance_cs - from_cs).toNat := by omega
    have hk2 : (s.advance_cs - from_cs).toNat ≤ 2 ^ 56 := by omega
    have hoff : s.accumulated_audio.length ≤
        (wrapU64 (from_cs - s.advance_cs) * CS_SAMPLES) % 2 ^ 64 := by
      rw [hwk]
      unfold CS_SAMPLES
      have e1 : (2 ^ 64 - (s.advance_cs - from_cs).toNat) * 160 =
          (2 ^ 64 - 160 * (s.advance_cs - from_cs).toNat) + 159 * 2 ^ 64 := by
        omega
      rw [e1, Nat.add_mul_mod_self_right, Nat.mod_eq_of_lt (by omega)]
      omega
    rw [if_pos hoff]
  · intro h1 h2 h3
    simp only [Session.transcribe_from]
    split_ifs with hif1 hif2
    · rfl
    · rfl
    · exfalso
      unfold wrapU64 at hif1 hif2
      unfold CS_SAMPLES at hif1 hif2 h3
      simp only [List.length_drop] at hif2
      unfold MIN_SAMPLES at hif2 h3
      omega

/-- Witness for C10 at a concrete input: a re-pass from `from_cs = −1` on a
session with `advance_cs = 0` returns no segments. -/
theorem claim_C10_witness :
    cexSession.transcribe_from cexEngine 50000 (-1) false = [] :=
  (claim_C10 cexEngine 50000 cexSession (-1) false).1 (by decide) (by decide)
    (by rw [cex_len]; decide)

end WhisperPreview
